import Mathlib

/-!
Verification development for the Kimiko core (`kimiko_core.py`): persistent
short/long-term memory, mode-aware conversation state, the send pipeline and
the command interpreter.  Python data is embedded shallowly: dicts with fixed
keys become structures, ordered dicts become association lists, `time.time()`
becomes an explicit `now : Int` argument, the network call becomes an injected
`ClientResult`, and raised exceptions become `Except String`.  The fuzzy
matcher `difflib.SequenceMatcher(None, a, b).ratio()` used by
`KimikoCore.similar` is embedded in full (b2j chain with autojunk popularity
filtering, the j2len dynamic program of `find_longest_match`, its four
extension loops, and the recursive block decomposition of
`get_matching_blocks`); floats are modelled as rationals.
-/

namespace Kimiko

/-- Python `lst[-n:]`: for `n = 0` this is the whole list (since `lst[-0:]`
is `lst[0:]`), otherwise the last `min n (length)` elements. -/
def pyLastSlice (n : Nat) (xs : List α) : List α :=
  if n = 0 then xs else xs.drop (xs.length - n)

/-- Python `s.lower()` (tokens in this development are ASCII). -/
def pyLower (s : String) : String := String.mk (s.data.map Char.toLower)

/-- Python `s.strip()`: drop whitespace from both ends. -/
def pyStrip (s : String) : String :=
  String.mk (((s.data.dropWhile Char.isWhitespace).reverse.dropWhile
    Char.isWhitespace).reverse)

/-- Python `s.split(maxsplit=1)`: split on the first run of whitespace,
dropping leading whitespace; an all-whitespace remainder yields no second
part; an all-whitespace input yields `[]`. -/
def pySplitMax1 (s : String) : List String :=
  let l := s.data.dropWhile Char.isWhitespace
  if l = [] then []
  else
    let tok := l.takeWhile (fun c => !c.isWhitespace)
    let rest := (l.drop tok.length).dropWhile Char.isWhitespace
    if rest = [] then [String.mk tok] else [String.mk tok, String.mk rest]

/-- First-match association-list lookup (Python dict read). -/
def alookup (l : List (String × α)) (key : String) : Option α :=
  match l with
  | [] => none
  | (k, v) :: t => if k = key then some v else alookup t key

/-- Association-list update (Python dict assignment: replace in place,
else append at the end). -/
def aupdate (l : List (String × α)) (key : String) (val : α) : List (String × α) :=
  match l with
  | [] => [(key, val)]
  | (k, v) :: t => if k = key then (k, val) :: t else (k, v) :: aupdate t key val

/-- A single-quote character, for building Python-style quoted messages. -/
def sq : String := String.singleton (Char.ofNat 39)

/-! ## The difflib model

`KimikoCore.similar` calls `SequenceMatcher(None, a, b).ratio()`.  The
embedding below follows CPython's `difflib.py` with `isjunk = None` and
`autojunk = True`. -/

/-- `isjunk` is `None` in `KimikoCore.similar`, so the junk set `bjunk` is
empty. -/
def bjunk (_ : Char) : Bool := false

/-- Autojunk popularity: with `len(b) >= 200`, an element occurring more than
`len(b) // 100 + 1` times is dropped from `b2j`. -/
def popularB (b : List Char) (c : Char) : Bool :=
  decide (200 ≤ b.length) && decide (b.length / 100 + 1 < b.count c)

/-- The `b2j` chain: ascending positions of `c` in `b`, with popular elements
purged (a char absent from `b` gets `[]`, matching `b2j.get(a[i], nothing)`). -/
def b2jList (b : List Char) (c : Char) : List Nat :=
  if popularB b c then []
  else (List.range b.length).filter (fun j => b.getD j ' ' = c)

/-- One pass of the inner `for j in b2j.get(a[i], nothing)` loop of
`find_longest_match`, threading the fresh `newj2len` dict (a total function,
unset keys read 0) and the running best `(besti, bestj, bestsize)`.
`j < blo` is `continue`, `j >= bhi` is `break`, and the length read
`j2lenget(j-1, 0)` comes from the previous row `d`. -/
def flmInner (d : Nat → Nat) (i blo bhi : Nat) :
    List Nat → (Nat → Nat) → Nat × Nat × Nat → ((Nat → Nat) × (Nat × Nat × Nat)) :=
  fun js nd best =>
    match js with
    | [] => (nd, best)
    | j :: rest =>
      if j < blo then flmInner d i blo bhi rest nd best
      else if bhi ≤ j then (nd, best)
      else
        let k := (match j with | 0 => 0 | j' + 1 => d j') + 1
        let nd' := fun j' => if j' = j then k else nd j'
        let best' := if best.2.2 < k then (i + 1 - k, j + 1 - k, k) else best
        flmInner d i blo bhi rest nd' best'

/-- The outer `for i in range(alo, ahi)` loop of `find_longest_match`,
processing `count` rows starting at `alo`.  State: previous row's `j2len`
and the running best. -/
def flmRows (a b : List Char) (alo blo bhi : Nat) :
    Nat → ((Nat → Nat) × (Nat × Nat × Nat))
  | 0 => (fun _ => 0, (alo, blo, 0))
  | count + 1 =>
    let st := flmRows a b alo blo bhi count
    let i := alo + count
    flmInner st.1 i blo bhi (b2jList b (a.getD i ' ')) (fun _ => 0) st.2

/-- Backward extension loop (`while besti > alo and bestj > blo and
p(b[bestj-1]) and a[besti-1] == b[bestj-1]`), recursing structurally on
`besti`. -/
def extBack (a b : List Char) (p : Char → Bool) (alo blo : Nat) :
    Nat → Nat → Nat → Nat × Nat × Nat
  | 0, bj, bs => (0, bj, bs)
  | bi + 1, bj, bs =>
    if alo < bi + 1 && decide (blo < bj) && p (b.getD (bj - 1) ' ')
        && (a.getD bi ' ' == b.getD (bj - 1) ' ') then
      extBack a b p alo blo bi (bj - 1) (bs + 1)
    else (bi + 1, bj, bs)

/-- Forward extension loop (`while besti+bestsize < ahi and ...`), with fuel
`ahi - besti - bestsize` so the fuel runs out exactly when the first
condition fails. -/
def extFwd (a b : List Char) (p : Char → Bool) (ahi bhi bi bj : Nat) :
    Nat → Nat → Nat
  | 0, bs => bs
  | fuel + 1, bs =>
    if decide (bi + bs < ahi) && decide (bj + bs < bhi) && p (b.getD (bj + bs) ' ')
        && (a.getD (bi + bs) ' ' == b.getD (bj + bs) ' ') then
      extFwd a b p ahi bhi bi bj fuel (bs + 1)
    else bs

/-- `SequenceMatcher.find_longest_match` on `a[alo:ahi]` and `b[blo:bhi]`:
the j2len dynamic program, then the two non-junk extension loops, then the
two junk extension loops (no-ops here since `bjunk` is empty, kept for
fidelity). -/
def find_longest_match (a b : List Char) (alo ahi blo bhi : Nat) : Nat × Nat × Nat :=
  let st := flmRows a b alo blo bhi (ahi - alo)
  let bi := st.2.1
  let bj := st.2.2.1
  let bs := st.2.2.2
  let e1 := extBack a b (fun c => !bjunk c) alo blo bi bj bs
  let bs2 := extFwd a b (fun c => !bjunk c) ahi bhi e1.1 e1.2.1
    (ahi - e1.1 - e1.2.2) e1.2.2
  let e3 := extBack a b bjunk alo blo e1.1 e1.2.1 bs2
  let bs4 := extFwd a b bjunk ahi bhi e3.1 e3.2.1 (ahi - e3.1 - e3.2.2) e3.2.2
  (e3.1, e3.2.1, bs4)

/-- The recursive block decomposition of `get_matching_blocks` (the queue in
CPython is just an explicit recursion stack; the final sort restores exactly
this in-order traversal, and the adjacent-block merge preserves the total
match count, which is all `ratio` consumes).  Fuel bounds the recursion
depth; `(ahi - alo) + (bhi - blo)` strictly decreases at every recursive
call, so the fuel used at top level suffices. -/
def matchingBlocksAux (a b : List Char) :
    Nat → Nat → Nat → Nat → Nat → List (Nat × Nat × Nat)
  | 0, _, _, _, _ => []
  | fuel + 1, alo, ahi, blo, bhi =>
    let m := find_longest_match a b alo ahi blo bhi
    let i := m.1
    let j := m.2.1
    let k := m.2.2
    if k = 0 then []
    else
      (if alo < i ∧ blo < j then matchingBlocksAux a b fuel alo i blo j else [])
        ++ (i, j, k) ::
          (if i + k < ahi ∧ j + k < bhi then
            matchingBlocksAux a b fuel (i + k) ahi (j + k) bhi
          else [])

/-- `SequenceMatcher.get_matching_blocks` including the `(la, lb, 0)`
terminator. -/
def get_matching_blocks (a b : List Char) : List (Nat × Nat × Nat) :=
  matchingBlocksAux a b (a.length + b.length + 1) 0 a.length 0 b.length
    ++ [(a.length, b.length, 0)]

/-- Total number of matched elements: `sum(triple[-1] for triple in blocks)`. -/
def matchTotal (a b : List Char) : Nat :=
  (get_matching_blocks a b).foldl (fun acc t => acc + t.2.2) 0

/-- `SequenceMatcher.ratio()` via `_calculate_ratio`: `2.0 * matches / length`
when `length` is nonzero, else `1.0`. -/
def simRatio (a b : List Char) : Rat :=
  if a.length + b.length = 0 then 1
  else (2 * (matchTotal a b : Rat)) / ((a.length : Rat) + (b.length : Rat))

/-! ## The Kimiko data model -/

/-- `KimikoConfig` (frozen dataclass); floats are modelled as rationals and
times as integer seconds. -/
structure KimikoConfig where
  api_url : String := "http://localhost:1234/v1/chat/completions"
  model_name : String := "MythoMax-L2-Kimiko-v2-13B"
  save_file : String := "connectai_memory.json"
  short_term_lifetime : Int := 420
  promotion_threshold : Nat := 4
  similarity_threshold : Rat := 0.78
  temperature : Rat := 0.8
  max_tokens : Nat := 400
  max_history_window : Nat := 20
deriving DecidableEq, Repr

/-- The module-level `ROLE_CONTEXTS` dict (insertion-ordered). -/
def ROLE_CONTEXTS : List (String × String) :=
  [("work",
    "You are Kimiko in Work Mode. You are a productivity and focus companion. Be encouraging, direct, and concise. Help the user plan, prioritize, and rest sustainably."),
   ("therapy",
    "You are Kimiko in Reflection Mode. You are supportive, empathetic, and non-judgmental. Encourage emotional expression and grounding. Do not provide clinical therapy or diagnoses."),
   ("companion",
    "You are Kimiko in Companion Mode. You are warm, playful, and emotionally present. Chat naturally and keep a gentle, friendly tone.")]

/-- A memory entry dict `{"text": ..., "timestamp": ...}`; a missing
timestamp key is `none` (read back through `entry.get("timestamp", now)`).
Equality is structural, as for Python dicts. -/
structure Entry where
  text : String
  timestamp : Option Int
deriving DecidableEq, Repr

/-- The memory store `{"log": [...], "perma": [...]}`. -/
structure Memory where
  log : List Entry
  perma : List Entry
deriving DecidableEq, Repr

/-- A role-tagged conversation message. -/
structure Message where
  role : String
  content : String
deriving DecidableEq, Repr

/-- The `KimikoCore` dataclass state.  Dicts keyed by mode name become
association lists; the `Counter` becomes an association list of counts. -/
structure KimikoCore where
  config : KimikoConfig
  role_contexts : List (String × String)
  memory : Memory
  word_counts : List (String × Nat)
  current_mode : String
  conversations : List (String × List Message)
deriving DecidableEq, Repr

/-- `__post_init__`: one persona-seeded history per mode, default mode
`companion`.  The memory produced by `setup_memory` (a file read) is passed
in as `mem0`. -/
def mkKimikoCore (cfg : KimikoConfig) (rc : List (String × String)) (mem0 : Memory) :
    KimikoCore :=
  { config := cfg
    role_contexts := rc
    memory := mem0
    word_counts := []
    current_mode := "companion"
    conversations := rc.map (fun p => (p.1, [{ role := "system", content := p.2 }])) }

/-- The shipped instance shape: default config, the three stock modes, and
an empty store. -/
def defaultCore : KimikoCore := mkKimikoCore {} ROLE_CONTEXTS ⟨[], []⟩

/-- A word character of `re.findall(r"\b\w+\b", ...)` (alphanumerics and
underscore; tokens in this development are ASCII). -/
def wordChar (c : Char) : Bool := c.isAlphanum || c == '_'

/-- `KimikoCore.normalize`: lower-case, then the maximal word-character runs
in order. -/
def normalize (text : String) : List String :=
  let f : Char → (List String × List Char) → (List String × List Char) := fun c acc =>
    if wordChar c then (acc.1, c :: acc.2)
    else if acc.2.isEmpty then acc else (String.mk acc.2 :: acc.1, [])
  let r := (text.data.map Char.toLower).foldr f ([], [])
  if r.2.isEmpty then r.1 else String.mk r.2 :: r.1

/-- `KimikoCore.similar`: `SequenceMatcher(None, a, b).ratio() >= threshold`. -/
def similar (cfg : KimikoConfig) (a b : String) : Bool :=
  decide (cfg.similarity_threshold ≤ simRatio a.data b.data)

/-- `KimikoCore.related_to`: some token of `text` equals `word` or is
`similar` to it (`or` short-circuits, as in Python). -/
def related_to (cfg : KimikoConfig) (word text : String) : Bool :=
  (normalize text).any (fun token => token == word || similar cfg token word)

/-- `KimikoCore.cleanup_memory`: drop log entries whose age reaches
`short_term_lifetime`; a missing timestamp defaults to `now`. -/
def cleanup_memory (cfg : KimikoConfig) (now : Int) (mem : Memory) : Memory :=
  { mem with
    log := mem.log.filter (fun e =>
      decide (now - (e.timestamp.getD now) < cfg.short_term_lifetime)) }

/-- `KimikoCore.promote_to_perma`: append to `perma` every log entry related
to `keyword` and not already structurally present; `perma` is consulted as
it grows, exactly as the Python loop mutates it in place. -/
def promote_to_perma (cfg : KimikoConfig) (keyword : String) (mem : Memory) : Memory :=
  { mem with
    perma := mem.log.foldl
      (fun acc e =>
        if related_to cfg keyword e.text = true ∧ e ∉ acc then acc ++ [e] else acc)
      mem.perma }

/-- The loop body of `promote_to_perma`. -/
def promoteStep (cfg : KimikoConfig) (keyword : String) (acc : List Entry) (e : Entry) :
    List Entry :=
  if related_to cfg keyword e.text = true ∧ e ∉ acc then acc ++ [e] else acc

/-- `KimikoCore.add_memory`: no-op on whitespace-only text, else append the
trimmed text stamped `now`. -/
def add_memory (text : String) (now : Int) (mem : Memory) : Memory :=
  let t := pyStrip text
  if t = "" then mem else { mem with log := mem.log ++ [{ text := t, timestamp := some now }] }

/-- `KimikoCore.recall_context`: cleanup, then join the non-empty texts of
the `lst[-max_perma:]` perma slice followed by the `lst[-max_recent:]` log
slice, with a placeholder when nothing survives.  Returns the string and
the post-cleanup memory. -/
def recall_context (cfg : KimikoConfig) (max_recent max_perma : Nat) (now : Int)
    (mem : Memory) : String × Memory :=
  let mem' := cleanup_memory cfg now mem
  let recent := (pyLastSlice max_recent mem'.log).map Entry.text
  let perma := (pyLastSlice max_perma mem'.perma).map Entry.text
  let combined := (perma ++ recent).filter (fun x => x ≠ "")
  (if combined.isEmpty then "(no recent memories)" else String.intercalate "\n" combined,
   mem')

/-- The `combined` list `recall_context` assembles before joining: the
sources of every line of the returned context. -/
def contextSources (cfg : KimikoConfig) (max_recent max_perma : Nat) (now : Int)
    (mem : Memory) : List String :=
  let mem' := cleanup_memory cfg now mem
  ((pyLastSlice max_perma mem'.perma).map Entry.text
    ++ (pyLastSlice max_recent mem'.log).map Entry.text).filter (fun x => x ≠ "")

/-- Python `repr` of the mode-name list, used in the `set_mode` error. -/
def pyKeyList (keys : List String) : String :=
  "[" ++ String.intercalate ", " (keys.map (fun k => sq ++ k ++ sq)) ++ "]"

/-- `KimikoCore.set_mode`: normalize, fail on unknown mode (a raised
`ValueError`), else switch with no history side effects. -/
def set_mode (st : KimikoCore) (mode_name : String) : Except String KimikoCore :=
  let normalized := pyStrip (pyLower mode_name)
  if (alookup st.conversations normalized).isSome then
    Except.ok { st with current_mode := normalized }
  else
    Except.error ("Invalid mode " ++ sq ++ mode_name ++ sq ++ ". Must be one of: "
      ++ pyKeyList (st.conversations.map (fun p => p.1)))

/-- `(mode or self.current_mode).lower()`: `None` and the empty string both
fall back to the current mode. -/
def resolveMode (st : KimikoCore) (mode : Option String) : String :=
  (match mode with
   | none => st.current_mode
   | some s => if s = "" then st.current_mode else s) |> pyLower

/-- `KimikoCore.reset_conversation`: fail on a mode without persona preamble
(a raised `ValueError`), else install the single persona-seeded message. -/
def reset_conversation (st : KimikoCore) (mode : Option String) : Except String KimikoCore :=
  let m := resolveMode st mode
  match alookup st.role_contexts m with
  | none => Except.error ("Unknown mode " ++ sq ++ m ++ sq ++ ".")
  | some p =>
    Except.ok { st with
      conversations := aupdate st.conversations m [{ role := "system", content := p }] }

/-- The outbound request body of `_build_payload`. -/
structure Payload where
  model : String
  messages : List Message
  temperature : Rat
  max_tokens : Nat
deriving DecidableEq, Repr

/-- `Counter[word] += 1`. -/
def bumpCount (l : List (String × Nat)) (w : String) : List (String × Nat) :=
  aupdate l w ((alookup l w).getD 0 + 1)

/-- The word loop of `_build_payload`: bump each word's count and promote
every word whose count is at or past the threshold. -/
def promoteWords (cfg : KimikoConfig) (counts : List (String × Nat)) (mem : Memory)
    (words : List String) : List (String × Nat) × Memory :=
  words.foldl
    (fun acc word =>
      let counts := bumpCount acc.1 word
      if cfg.promotion_threshold ≤ (alookup counts word).getD 0 then
        (counts, promote_to_perma cfg word acc.2)
      else (counts, acc.2))
    (counts, mem)

/-- `KimikoCore._build_payload`: record the input into memory, bump word
counts (promoting every word at or past the threshold), fetch the memory
digest, append the context and user messages to the current mode's history,
and build the windowed request.  A current mode with no history is a raised
`KeyError`. -/
def build_payload (st : KimikoCore) (user_input : String) (now : Int) :
    Except String (Payload × KimikoCore) :=
  let mode := st.current_mode
  match alookup st.conversations mode with
  | none => Except.error "KeyError: conversations"
  | some convo0 =>
    let mem1 := add_memory user_input now st.memory
    let wm := promoteWords st.config st.word_counts mem1 (normalize user_input)
    let rc := recall_context st.config 5 10 now wm.2
    let convo1 := convo0 ++
      [{ role := "system", content := "Memory context:\n" ++ rc.1 },
       { role := "user", content := user_input }]
    Except.ok
      ({ model := st.config.model_name
         messages := pyLastSlice st.config.max_history_window convo1
         temperature := st.config.temperature
         max_tokens := st.config.max_tokens },
       { st with
         memory := rc.2
         word_counts := wm.1
         conversations := aupdate st.conversations mode convo1 })

/-- The completion-client collaborator of `KimikoCore.send` (the `urlopen`
POST plus JSON decode plus the reply-extraction `or` chain of lines
184-201): it delivers either the extracted reply text, or the message of a
caught transport / timeout / JSON-decode error. -/
inductive ClientResult where
  | failure (msg : String)
  | success (reply : String)
deriving DecidableEq, Repr

/-- `KimikoCore.send`: build the payload, consult the completion client, on
a caught error substitute the literal diagnostic string, then append the
assistant message to the current mode's history and return the reply. -/
def send (st : KimikoCore) (user_input : String) (now : Int) (res : ClientResult) :
    Except String (KimikoCore × String) :=
  match build_payload st user_input now with
  | Except.error e => Except.error e
  | Except.ok (_payload, st1) =>
    match alookup st1.conversations st1.current_mode with
    | none => Except.error "KeyError: conversations"
    | some convo =>
      let reply := match res with
        | ClientResult.failure msg => "(Error contacting model: " ++ msg ++ ")"
        | ClientResult.success r => r
      Except.ok
        ({ st1 with
           conversations := aupdate st1.conversations st1.current_mode
             (convo ++ [{ role := "assistant", content := reply }]) },
         reply)

/-- `f"{i}. {m['text']}"` over `enumerate(entries, 1)`. -/
def numberedLines (entries : List Entry) : List String :=
  entries.enum.map (fun p => toString (p.1 + 1) ++ ". " ++ p.2.text)

/-- `KimikoCore.handle_command`: parse the leading token case-insensitively;
`none` is the not-a-command sentinel, `Except.error` a raised exception
(`set_mode` and `reset_conversation` raise through `/mode` and `/reset`). -/
def handle_command (st : KimikoCore) (cmd : String) :
    Except String (KimikoCore × Option String) :=
  match pySplitMax1 cmd with
  | [] => Except.ok (st, none)
  | action0 :: rest =>
    let action := pyLower action0
    if action = "/show" then
      match rest with
      | [] => Except.ok (st, some "⚠️ Usage: /show perma | /show log")
      | arg :: _ =>
        let target := pyLower (pyStrip arg)
        if target = "perma" then
          if st.memory.perma.isEmpty then Except.ok (st, some "No permanent memories.")
          else Except.ok (st, some (String.intercalate "\n" (numberedLines st.memory.perma)))
        else if target = "log" then
          if st.memory.log.isEmpty then Except.ok (st, some "No short-term logs.")
          else Except.ok (st, some (String.intercalate "\n" (numberedLines st.memory.log)))
        else Except.ok (st, some "⚠️ Unknown target for /show")
    else if action = "/forget" then
      match rest with
      | [] => Except.ok (st, some "⚠️ Usage: /forget <word>")
      | arg :: _ =>
        let word := pyLower (pyStrip arg)
        let before := st.memory.perma.length
        let perma2 := st.memory.perma.filter (fun m => !(related_to st.config word m.text))
        Except.ok
          ({ st with memory := { st.memory with perma := perma2 } },
           some ("Forgot " ++ toString (before - perma2.length)
             ++ " perma entries related to " ++ sq ++ word ++ sq ++ "."))
    else if action = "/clear" then
      match rest with
      | [] => Except.ok (st, some "⚠️ Usage: /clear perma | /clear all")
      | arg :: _ =>
        let target := pyLower (pyStrip arg)
        if target = "perma" then
          Except.ok ({ st with memory := { st.memory with perma := [] } },
            some "Cleared permanent memory.")
        else if target = "all" then
          Except.ok ({ st with memory := ⟨[], []⟩ }, some "Cleared all memory.")
        else Except.ok (st, some "⚠️ Unknown target for /clear")
    else if action = "/mode" then
      match rest with
      | [] => Except.ok (st, some ("Current mode: " ++ st.current_mode))
      | arg :: _ =>
        match set_mode st (pyStrip arg) with
        | Except.error e => Except.error e
        | Except.ok st2 =>
          Except.ok (st2, some ("Mode changed to " ++ sq ++ st2.current_mode ++ sq ++ "."))
    else if action = "/reset" then
      match reset_conversation st none with
      | Except.error e => Except.error e
      | Except.ok st2 =>
        Except.ok (st2, some ("Conversation reset for " ++ st2.current_mode ++ " mode."))
    else Except.ok (st, none)

/-! ## Persistence load (`setup_memory`) -/

/-- A JSON value, as produced by `json.load`. -/
inductive JValue where
  | null
  | jbool (b : Bool)
  | num (n : Int)
  | str (s : String)
  | arr (elems : List JValue)
  | obj (fields : List (String × JValue))

/-- `payload.get(key, default)` on a parsed JSON object. -/
def pyDictGet (fields : List (String × JValue)) (key : String) (dflt : JValue) : JValue :=
  match alookup fields key with
  | some v => v
  | none => dflt

/-- What reading the save file can yield: the file may be absent, empty
(`getsize == 0`), unreadable (`OSError`), unparsable (`JSONDecodeError`),
or parsed into a JSON value. -/
inductive ReadResult where
  | missing
  | emptyFile
  | readError
  | parseError
  | parsed (v : JValue)

/-- `KimikoCore.setup_memory` (lines 79-93): absent/empty files and caught
read or parse errors reset the store and immediately persist it (the `Bool`
records whether `save_memory` was invoked); a parsed object installs its
`log` and `perma` fields with `[]` defaults and does not save; a parsed
non-object raises `AttributeError` from `payload.get`, which is not in the
caught exception tuple. -/
def setup_memory : ReadResult → Except String (JValue × JValue × Bool)
  | ReadResult.missing => Except.ok (JValue.arr [], JValue.arr [], true)
  | ReadResult.emptyFile => Except.ok (JValue.arr [], JValue.arr [], true)
  | ReadResult.readError => Except.ok (JValue.arr [], JValue.arr [], true)
  | ReadResult.parseError => Except.ok (JValue.arr [], JValue.arr [], true)
  | ReadResult.parsed v =>
    match v with
    | JValue.obj fields =>
      Except.ok (pyDictGet fields "log" (JValue.arr []),
        pyDictGet fields "perma" (JValue.arr []), false)
    | _ => Except.error "AttributeError: get"

/-- The persisted payload matches the documented schema: a JSON object whose
`log` and `perma` fields (defaulted to `[]` when absent) are arrays. -/
def wellFormedPayload : JValue → Bool
  | JValue.obj fields =>
    (match pyDictGet fields "log" (JValue.arr []) with
     | JValue.arr _ => true
     | _ => false)
    && (match pyDictGet fields "perma" (JValue.arr []) with
        | JValue.arr _ => true
        | _ => false)
  | _ => false

/-- The triggers the specification lists for self-healing: missing file,
empty file, read/parse failure, or schema mismatch. -/
def loadTrigger : ReadResult → Prop
  | ReadResult.missing => True
  | ReadResult.emptyFile => True
  | ReadResult.readError => True
  | ReadResult.parseError => True
  | ReadResult.parsed v => wellFormedPayload v = false

/-! ## Specification-side definitions -/

/-- The last `min n (length)` elements: "up to `n` most-recent" as the
specification words it (none for `n = 0`). -/
def specLastN (n : Nat) (xs : List α) : List α := xs.drop (xs.length - n)

/-- `recallContext` as the claim words it: cleanup first, then the texts of
up to `maxPerma` most-recent perma entries followed by up to `maxRecent`
most-recent log entries, one text per line, with a placeholder when nothing
qualifies. -/
def recall_context_claim (cfg : KimikoConfig) (max_recent max_perma : Nat) (now : Int)
    (mem : Memory) : String :=
  let mem' := cleanup_memory cfg now mem
  let parts := (specLastN max_perma mem'.perma).map Entry.text
    ++ (specLastN max_recent mem'.log).map Entry.text
  if parts.isEmpty then "(no recent memories)" else String.intercalate "\n" parts

/-- The amended reading: as `recall_context_claim`, but only the non-empty
texts are kept as lines (and the placeholder appears when no non-empty text
qualifies). -/
def recall_context_amended (cfg : KimikoConfig) (max_recent max_perma : Nat) (now : Int)
    (mem : Memory) : String :=
  let mem' := cleanup_memory cfg now mem
  let parts := ((specLastN max_perma mem'.perma).map Entry.text
    ++ (specLastN max_recent mem'.log).map Entry.text).filter (fun x => x ≠ "")
  if parts.isEmpty then "(no recent memories)" else String.intercalate "\n" parts

/-- A log entry `cleanup_memory` drops at time `now`: its age (zero when the
timestamp is missing) has reached `short_term_lifetime`. -/
def expiredAt (cfg : KimikoConfig) (now : Int) (e : Entry) : Prop :=
  cfg.short_term_lifetime ≤ now - (e.timestamp.getD now)

/-- The persona invariant: every mode with a configured persona preamble has
a conversation history beginning with that preamble as a system message. -/
def personaInv (st : KimikoCore) : Prop :=
  ∀ m p, alookup st.role_contexts m = some p →
    ∃ rest, alookup st.conversations m = some ({ role := "system", content := p } :: rest)

/-! ## Proof-side view of the self-comparison dynamic program

For the reflexivity of `similar` we characterise the j2len rows of
`find_longest_match s s 0 n 0 n`: `diagR s i j` is the value the dynamic
program stores at column `j` while processing row `i` (0 when `j` is not
stored). -/

def diagR (s : List Char) : Nat → Nat → Nat
  | 0, j => if j ∈ b2jList s (s.getD 0 ' ') then 1 else 0
  | i + 1, 0 => if 0 ∈ b2jList s (s.getD (i + 1) ' ') then 1 else 0
  | i + 1, j + 1 =>
    if (j + 1) ∈ b2jList s (s.getD (i + 1) ' ') then diagR s i j + 1 else 0

/-! ## Association-list lemmas -/

theorem alookup_aupdate_self (l : List (String × α)) (k : String) (v : α) :
    alookup (aupdate l k v) k = some v := by
  induction l with
  | nil => simp [aupdate, alookup]
  | cons h t ih =>
    by_cases hk : h.1 = k
    · simp [aupdate, alookup, hk]
    · simpa [aupdate, alookup, hk] using ih

theorem alookup_aupdate_ne (l : List (String × α)) (k : String) (v : α) (k' : String)
    (h : k' ≠ k) : alookup (aupdate l k v) k' = alookup l k' := by
  induction l with
  | nil =>
    simp only [aupdate, alookup]
    rw [if_neg (fun hh => h hh.symm)]
  | cons hd t ih =>
    by_cases hk : hd.1 = k
    · simp only [aupdate, if_pos hk, alookup]
      by_cases hk' : hd.1 = k'
      · exact absurd (hk'.symm.trans hk) h
      · simp [hk']
    · simp only [aupdate, if_neg hk, alookup]
      by_cases hk' : hd.1 = k' <;> simp [hk', ih]

/-! ## Promotion lemmas (C3) -/

theorem promote_to_perma_perma (cfg : KimikoConfig) (keyword : String) (mem : Memory) :
    promote_to_perma cfg keyword mem
      = { mem with perma := mem.log.foldl (promoteStep cfg keyword) mem.perma } := rfl

theorem promoteStep_subset (cfg : KimikoConfig) (kw : String) (acc : List Entry)
    (e x : Entry) (hx : x ∈ acc) : x ∈ promoteStep cfg kw acc e := by
  unfold promoteStep
  split <;> simp [hx]

theorem promote_foldl_mono (cfg : KimikoConfig) (kw : String) (l : List Entry) :
    ∀ acc x, x ∈ acc → x ∈ l.foldl (promoteStep cfg kw) acc := by
  induction l with
  | nil => intro acc x hx; simpa using hx
  | cons e t ih =>
    intro acc x hx
    exact ih _ x (promoteStep_subset cfg kw acc e x hx)

theorem promote_foldl_mem (cfg : KimikoConfig) (kw : String) (l : List Entry) :
    ∀ acc e, e ∈ l → related_to cfg kw e.text = true →
      e ∈ l.foldl (promoteStep cfg kw) acc := by
  induction l with
  | nil => intro acc e he; cases he
  | cons a t ih =>
    intro acc e he hrel
    rcases List.mem_cons.mp he with rfl | ht
    · refine promote_foldl_mono cfg kw t (promoteStep cfg kw acc e) e ?_
      unfold promoteStep
      by_cases hin : e ∈ acc
      · simp [hin]
      · simp [hrel, hin]
    · exact ih _ e ht hrel

theorem promote_foldl_fixed (cfg : KimikoConfig) (kw : String) (l : List Entry)
    (acc : List Entry) (h : ∀ e ∈ l, related_to cfg kw e.text = true → e ∈ acc) :
    l.foldl (promoteStep cfg kw) acc = acc := by
  induction l with
  | nil => rfl
  | cons a t ih =>
    have step : promoteStep cfg kw acc a = acc := by
      unfold promoteStep
      by_cases hrel : related_to cfg kw a.text = true
      · simp [h a (by simp) hrel]
      · simp [hrel]
    simpa [List.foldl_cons, step] using
      ih (fun e he hrel => h e (by simp [he]) hrel)

theorem promote_foldl_nodup (cfg : KimikoConfig) (kw : String) (l : List Entry) :
    ∀ acc, acc.Nodup → (l.foldl (promoteStep cfg kw) acc).Nodup := by
  induction l with
  | nil => intro acc h; simpa using h
  | cons a t ih =>
    intro acc h
    apply ih
    unfold promoteStep
    split
    · next hcond => simpa [List.nodup_append] using ⟨h, hcond.2⟩
    · exact h

/-- C3: running `promote_to_perma` twice in sequence with no intervening
additions to `log` leaves the store unchanged on the second run, and a
duplicate-free `perma` stays duplicate-free (no structurally duplicate entry
is ever created). -/
theorem C3_promote_idempotent_and_nodup (cfg : KimikoConfig) (kw : String) (mem : Memory)
    (hnd : mem.perma.Nodup) :
    promote_to_perma cfg kw (promote_to_perma cfg kw mem) = promote_to_perma cfg kw mem
      ∧ (promote_to_perma cfg kw mem).perma.Nodup := by
  constructor
  · have hfix : mem.log.foldl (promoteStep cfg kw)
        (mem.log.foldl (promoteStep cfg kw) mem.perma)
        = mem.log.foldl (promoteStep cfg kw) mem.perma :=
      promote_foldl_fixed cfg kw mem.log _
        (fun e he hrel => promote_foldl_mem cfg kw mem.log mem.perma e he hrel)
    simp only [promote_to_perma_perma]
    simp [hfix]
  · rw [promote_to_perma_perma]
    exact promote_foldl_nodup cfg kw mem.log mem.perma hnd

/-- C3 witness: a concrete run on a one-entry log. -/
theorem C3_witness :
    promote_to_perma {} "hi" (promote_to_perma {} "hi" ⟨[⟨"hi", some 0⟩], []⟩)
        = promote_to_perma {} "hi" ⟨[⟨"hi", some 0⟩], []⟩
      ∧ (promote_to_perma {} "hi" ⟨[⟨"hi", some 0⟩], []⟩).perma.Nodup :=
  C3_promote_idempotent_and_nodup {} "hi" ⟨[⟨"hi", some 0⟩], []⟩ (by decide)

/-! ## Load self-healing (C5) -/

/-- C5 counterexample: the claim quantifies over schema mismatches, but a
parsed top-level non-object (here the JSON array `[]`) makes `setup_memory`
raise `AttributeError` instead of resetting and persisting. -/
theorem C5_counterexample :
    ¬ (∀ r : ReadResult, loadTrigger r →
        setup_memory r = Except.ok (JValue.arr [], JValue.arr [], true)) := by
  intro h
  have htrig : loadTrigger (ReadResult.parsed (JValue.arr [])) := rfl
  have := h (ReadResult.parsed (JValue.arr [])) htrig
  simp [setup_memory] at this

/-- C5 amended: on a missing file, an empty file, or a caught read/parse
error, `setup_memory` resets the store to `{log: [], perma: []}` and
immediately persists it; schema mismatches are not healed (a parsed
non-object raises, and wrong-typed fields are installed as-is). -/
theorem C5_load_self_heals (r : ReadResult)
    (h : r = ReadResult.missing ∨ r = ReadResult.emptyFile ∨ r = ReadResult.readError
      ∨ r = ReadResult.parseError) :
    setup_memory r = Except.ok (JValue.arr [], JValue.arr [], true) := by
  rcases h with rfl | rfl | rfl | rfl <;> rfl

/-- C5 witness: the missing-file case. -/
theorem C5_witness :
    setup_memory ReadResult.missing = Except.ok (JValue.arr [], JValue.arr [], true) :=
  C5_load_self_heals ReadResult.missing (Or.inl rfl)

/-! ## Timestamp-less entries and cleanup (C10) -/

/-- C10 counterexample: the claim says a timestamp-less entry survives
cleanup regardless of `short_term_lifetime`, but with a non-positive
lifetime its defaulted age 0 already reaches the bound and the entry is
removed. -/
theorem C10_counterexample :
    ¬ (∀ (cfg : KimikoConfig) (now : Int) (mem : Memory) (e : Entry),
        e ∈ mem.log → e.timestamp = none → e ∈ (cleanup_memory cfg now mem).log) := by
  intro h
  have := h { short_term_lifetime := 0 } 5 ⟨[⟨"x", none⟩], []⟩ ⟨"x", none⟩
    (by decide) rfl
  revert this
  decide

/-- C10 amended: provided `short_term_lifetime` is positive (as in the
shipped config), an entry with no timestamp key has its timestamp defaulted
to `now`, so its age is 0 and no cleanup pass ever removes it. -/
theorem C10_no_timestamp_never_removed (cfg : KimikoConfig) (now : Int) (mem : Memory)
    (e : Entry) (hpos : 0 < cfg.short_term_lifetime) (he : e ∈ mem.log)
    (hts : e.timestamp = none) : e ∈ (cleanup_memory cfg now mem).log := by
  unfold cleanup_memory
  refine List.mem_filter.mpr ⟨he, ?_⟩
  simp [hts, hpos]

/-- C10 witness: the default 420-second lifetime keeps a timestamp-less
entry at an arbitrary time. -/
theorem C10_witness :
    ⟨"x", none⟩ ∈ (cleanup_memory {} 99999 ⟨[⟨"x", none⟩], []⟩).log :=
  C10_no_timestamp_never_removed {} 99999 ⟨[⟨"x", none⟩], []⟩ ⟨"x", none⟩
    (by decide) (by decide) rfl

/-! ## Reset semantics (C7) -/

/-- C7: `reset_conversation` fails (a raised `ValueError`) exactly when the
requested mode — the current mode when unspecified or empty, lowercased —
has no configured persona preamble; otherwise it replaces that mode's
history with exactly the single persona-seeded message, regardless of the
prior history. -/
theorem C7_reset_conversation_spec (st : KimikoCore) (mode : Option String) :
    reset_conversation st mode =
      (match alookup st.role_contexts (resolveMode st mode) with
       | none => Except.error ("Unknown mode " ++ sq ++ resolveMode st mode ++ sq ++ ".")
       | some p => Except.ok
          { st with conversations :=
              (aupdate st.conversations (resolveMode st mode)
                [(⟨"system", p⟩ : Message)]) })
    ∧ ∀ p, alookup st.role_contexts (resolveMode st mode) = some p →
        ∃ st2, reset_conversation st mode = Except.ok st2
          ∧ alookup st2.conversations (resolveMode st mode)
              = some [(⟨"system", p⟩ : Message)] := by
  refine ⟨rfl, ?_⟩
  intro p hp
  refine ⟨{ st with conversations :=
      (aupdate st.conversations (resolveMode st mode) [(⟨"system", p⟩ : Message)]) },
    ?_, alookup_aupdate_self _ _ _⟩
  simp only [reset_conversation, hp]

/-- C7 witness: resetting `work` (requested in upper case) on the shipped
core yields the single work-preamble message. -/
theorem C7_witness :
    ∃ st2, reset_conversation defaultCore (some "WORK") = Except.ok st2
      ∧ alookup st2.conversations (resolveMode defaultCore (some "WORK"))
          = some [(⟨"system", "You are Kimiko in Work Mode. You are a productivity and focus companion. Be encouraging, direct, and concise. Help the user plan, prioritize, and rest sustainably."⟩ : Message)] :=
  (C7_reset_conversation_spec defaultCore (some "WORK")).2 _ rfl

/-! ## Expiry and recall (C2, C6) -/

theorem pyLastSlice_subset (n : Nat) (xs : List α) : pyLastSlice n xs ⊆ xs := by
  unfold pyLastSlice
  split
  · exact fun _ h => h
  · exact List.drop_subset _ _

/-- C2 counterexample: an expired log entry is indeed removed, but its text
can still appear in the returned context — here a perma entry carries the
same text, and the context string is exactly that text — so the claim as
stated is false. -/
theorem C2_counterexample :
    ¬ (∀ (cfg : KimikoConfig) (now : Int) (mem : Memory) (mr mp : Nat) (e : Entry),
        e ∈ mem.log → expiredAt cfg now e →
          e ∉ (recall_context cfg mr mp now mem).2.log
          ∧ ¬ ∃ pre post, (recall_context cfg mr mp now mem).1 = pre ++ e.text ++ post) := by
  intro h
  have := h {} 1000 ⟨[⟨"x", some 0⟩], [⟨"x", some 0⟩]⟩ 5 10 ⟨"x", some 0⟩
    (by decide) (by unfold expiredAt; decide)
  exact this.2 ⟨"", "", by decide⟩

/-- C2 amended: after `recall_context`, every expired log entry has been
removed from `log`; the returned string is assembled exactly from the
`contextSources` list, whose members all are texts of perma entries or of
surviving log entries; hence an expired entry's text can only appear if a
perma entry or a surviving log entry carries the same text. -/
theorem C2_expired_entries_dropped (cfg : KimikoConfig) (now : Int) (mem : Memory)
    (mr mp : Nat) (e : Entry) (he : e ∈ mem.log) (hexp : expiredAt cfg now e) :
    e ∉ (recall_context cfg mr mp now mem).2.log
    ∧ (recall_context cfg mr mp now mem).1
        = (if (contextSources cfg mr mp now mem).isEmpty then "(no recent memories)"
           else String.intercalate "\n" (contextSources cfg mr mp now mem))
    ∧ (∀ t ∈ contextSources cfg mr mp now mem,
        t ∈ (cleanup_memory cfg now mem).perma.map Entry.text
          ∨ t ∈ (cleanup_memory cfg now mem).log.map Entry.text)
    ∧ (e.text ∉ (cleanup_memory cfg now mem).perma.map Entry.text →
        e.text ∉ (cleanup_memory cfg now mem).log.map Entry.text →
        e.text ∉ contextSources cfg mr mp now mem) := by
  have hdrop : e ∉ (cleanup_memory cfg now mem).log := by
    intro hmem
    have hpred := (List.mem_filter.mp hmem).2
    rw [decide_eq_true_iff] at hpred
    exact absurd hexp (not_le.mpr hpred)
  have hsrc : ∀ t ∈ contextSources cfg mr mp now mem,
      t ∈ (cleanup_memory cfg now mem).perma.map Entry.text
        ∨ t ∈ (cleanup_memory cfg now mem).log.map Entry.text := by
    intro t ht
    have ht2 := (List.mem_filter.mp ht).1
    rcases List.mem_append.mp ht2 with hp | hr
    · left
      rcases List.mem_map.mp hp with ⟨x, hx, rfl⟩
      exact List.mem_map.mpr ⟨x, pyLastSlice_subset _ _ hx, rfl⟩
    · right
      rcases List.mem_map.mp hr with ⟨x, hx, rfl⟩
      exact List.mem_map.mpr ⟨x, pyLastSlice_subset _ _ hx, rfl⟩
  refine ⟨hdrop, rfl, hsrc, ?_⟩
  intro h1 h2 hmem
  rcases hsrc _ hmem with h | h
  · exact h1 h
  · exact h2 h

/-- C2 witness: a concrete store in which the expired entry vanishes from
`log` and from the context sources. -/
theorem C2_witness :
    ⟨"old", some 0⟩ ∉
        (recall_context {} 5 10 1000 ⟨[⟨"old", some 0⟩, ⟨"new", some 900⟩], []⟩).2.log
    ∧ (recall_context {} 5 10 1000 ⟨[⟨"old", some 0⟩, ⟨"new", some 900⟩], []⟩).1
        = (if (contextSources {} 5 10 1000
              ⟨[⟨"old", some 0⟩, ⟨"new", some 900⟩], []⟩).isEmpty
           then "(no recent memories)"
           else String.intercalate "\n"
             (contextSources {} 5 10 1000 ⟨[⟨"old", some 0⟩, ⟨"new", some 900⟩], []⟩))
    ∧ (∀ t ∈ contextSources {} 5 10 1000 ⟨[⟨"old", some 0⟩, ⟨"new", some 900⟩], []⟩,
        t ∈ (cleanup_memory {} 1000 ⟨[⟨"old", some 0⟩, ⟨"new", some 900⟩], []⟩).perma.map
              Entry.text
          ∨ t ∈ (cleanup_memory {} 1000
              ⟨[⟨"old", some 0⟩, ⟨"new", some 900⟩], []⟩).log.map Entry.text)
    ∧ ((⟨"old", some 0⟩ : Entry).text ∉ (cleanup_memory {} 1000
          ⟨[⟨"old", some 0⟩, ⟨"new", some 900⟩], []⟩).perma.map Entry.text →
        (⟨"old", some 0⟩ : Entry).text ∉ (cleanup_memory {} 1000
          ⟨[⟨"old", some 0⟩, ⟨"new", some 900⟩], []⟩).log.map Entry.text →
        (⟨"old", some 0⟩ : Entry).text ∉
          contextSources {} 5 10 1000 ⟨[⟨"old", some 0⟩, ⟨"new", some 900⟩], []⟩) :=
  C2_expired_entries_dropped {} 1000 ⟨[⟨"old", some 0⟩, ⟨"new", some 900⟩], []⟩ 5 10
    ⟨"old", some 0⟩ (by decide) (by unfold expiredAt; decide)

/-- C6 counterexample: the code diverges from the claim's description of
`recall_context` at two concrete inputs: with `max_recent = 0` the Python
slice `log[-0:]` returns the whole log (not zero entries), and an entry
whose text is empty is filtered out, producing the placeholder instead of
an empty line. -/
theorem C6_counterexample :
    (recall_context {} 0 10 0 ⟨[⟨"a", some 0⟩, ⟨"", some 0⟩], []⟩).1
        ≠ recall_context_claim {} 0 10 0 ⟨[⟨"a", some 0⟩, ⟨"", some 0⟩], []⟩
    ∧ (recall_context {} 5 10 0 ⟨[], [⟨"", some 0⟩]⟩).1
        ≠ recall_context_claim {} 5 10 0 ⟨[], [⟨"", some 0⟩]⟩ := by
  exact ⟨by decide, by decide⟩

/-- C6 amended: for positive `max_recent` and `max_perma`, `recall_context`
runs cleanup first and then returns the non-empty texts of up to `max_perma`
most-recent perma entries followed by the non-empty texts of up to
`max_recent` most-recent surviving log entries, one per line with all perma
lines before all log lines, and returns the literal placeholder when no
non-empty text qualifies. -/
theorem C6_recall_context_spec (cfg : KimikoConfig) (mr mp : Nat) (now : Int)
    (mem : Memory) (hmr : 1 ≤ mr) (hmp : 1 ≤ mp) :
    (recall_context cfg mr mp now mem).1 = recall_context_amended cfg mr mp now mem
    ∧ (recall_context cfg mr mp now mem).2 = cleanup_memory cfg now mem := by
  have hslice : ∀ (n : Nat) (xs : List Entry), 1 ≤ n → pyLastSlice n xs = specLastN n xs := by
    intro n xs hn
    unfold pyLastSlice specLastN
    rw [if_neg (by omega)]
  constructor
  · show (if (((pyLastSlice mp (cleanup_memory cfg now mem).perma).map Entry.text
        ++ (pyLastSlice mr (cleanup_memory cfg now mem).log).map Entry.text).filter
          (fun x => x ≠ "")).isEmpty
      then "(no recent memories)"
      else String.intercalate "\n"
        (((pyLastSlice mp (cleanup_memory cfg now mem).perma).map Entry.text
          ++ (pyLastSlice mr (cleanup_memory cfg now mem).log).map Entry.text).filter
            (fun x => x ≠ ""))) = _
    rw [hslice mr _ hmr, hslice mp _ hmp]
    rfl
  · rfl

/-- C6 witness: the default arguments (5, 10) on a mixed store. -/
theorem C6_witness :
    (recall_context {} 5 10 1000
        ⟨[⟨"old", some 0⟩, ⟨"fresh", some 900⟩], [⟨"fact", some 1⟩]⟩).1
      = recall_context_amended {} 5 10 1000
          ⟨[⟨"old", some 0⟩, ⟨"fresh", some 900⟩], [⟨"fact", some 1⟩]⟩
    ∧ (recall_context {} 5 10 1000
        ⟨[⟨"old", some 0⟩, ⟨"fresh", some 900⟩], [⟨"fact", some 1⟩]⟩).2
      = cleanup_memory {} 1000
          ⟨[⟨"old", some 0⟩, ⟨"fresh", some 900⟩], [⟨"fact", some 1⟩]⟩ :=
  C6_recall_context_spec {} 5 10 1000
    ⟨[⟨"old", some 0⟩, ⟨"fresh", some 900⟩], [⟨"fact", some 1⟩]⟩
    (by decide) (by decide)

/-! ## Command handling (C8) -/

/-- C8 counterexample: `/mode` with an unrecognized mode name does not
return a warning string — `set_mode` raises `ValueError` through
`handle_command`. -/
theorem C8_counterexample :
    ¬ ∃ st2 res, handle_command defaultCore "/mode klingon" = Except.ok (st2, res) := by
  rintro ⟨st2, res, h⟩
  have h2 : handle_command defaultCore "/mode klingon"
      = Except.error ("Invalid mode " ++ sq ++ "klingon" ++ sq ++ ". Must be one of: "
          ++ pyKeyList ["work", "therapy", "companion"]) := rfl
  rw [h2] at h
  exact Except.noConfusion h

/-- C8 amended: unmatched leading tokens yield the not-a-command sentinel
`none`; a recognized command with a missing argument or an unrecognized
`/show` or `/clear` target yields a usage/warning string without failing;
but `/mode` with an unrecognized mode name raises (`set_mode`'s
`ValueError` propagates through `handle_command`). -/
theorem C8_command_handling (st : KimikoCore) :
    (∀ cmd, (pySplitMax1 cmd = []
        ∨ ∃ tok rest, pySplitMax1 cmd = tok :: rest
            ∧ pyLower tok ∉ (["/show", "/forget", "/clear", "/mode", "/reset"] : List String)) →
      handle_command st cmd = Except.ok (st, none))
    ∧ (∀ cmd tok, pySplitMax1 cmd = [tok] →
        pyLower tok ∈ (["/show", "/forget", "/clear"] : List String) →
        ∃ w, handle_command st cmd = Except.ok (st, some w))
    ∧ (∀ cmd tok rest, pySplitMax1 cmd = [tok, rest] → pyLower tok = "/show" →
        pyLower (pyStrip rest) ≠ "perma" → pyLower (pyStrip rest) ≠ "log" →
        handle_command st cmd = Except.ok (st, some "⚠️ Unknown target for /show"))
    ∧ (∀ cmd tok rest, pySplitMax1 cmd = [tok, rest] → pyLower tok = "/clear" →
        pyLower (pyStrip rest) ≠ "perma" → pyLower (pyStrip rest) ≠ "all" →
        handle_command st cmd = Except.ok (st, some "⚠️ Unknown target for /clear"))
    ∧ (∀ cmd tok rest, pySplitMax1 cmd = [tok, rest] → pyLower tok = "/mode" →
        (alookup st.conversations (pyStrip (pyLower (pyStrip rest)))).isSome = false →
        handle_command st cmd
          = Except.error ("Invalid mode " ++ sq ++ pyStrip rest ++ sq ++ ". Must be one of: "
              ++ pyKeyList (st.conversations.map (fun p => p.1)))) := by
  refine ⟨?_, ?_, ?_, ?_, ?_⟩
  · intro cmd h
    rcases h with h | ⟨tok, rest, hparse, hmem⟩
    · simp [handle_command, h]
    · simp only [List.mem_cons, List.mem_singleton, not_or] at hmem
      obtain ⟨h1, h2, h3, h4, h5⟩ := by
        simpa [not_or] using hmem
      simp [handle_command, hparse, h1, h2, h3, h4, h5]
  · intro cmd tok hparse hmem
    rcases (by simpa using hmem : pyLower tok = "/show" ∨ pyLower tok = "/forget"
        ∨ pyLower tok = "/clear") with h | h | h
    · exact ⟨"⚠️ Usage: /show perma | /show log", by simp [handle_command, hparse, h]⟩
    · by_cases hs : pyLower tok = "/show"
      · exact ⟨"⚠️ Usage: /show perma | /show log", by simp [handle_command, hparse, hs]⟩
      · exact ⟨"⚠️ Usage: /forget <word>", by simp [handle_command, hparse, hs, h]⟩
    · by_cases hs : pyLower tok = "/show"
      · exact ⟨"⚠️ Usage: /show perma | /show log", by simp [handle_command, hparse, hs]⟩
      · by_cases hf : pyLower tok = "/forget"
        · exact ⟨"⚠️ Usage: /forget <word>", by simp [handle_command, hparse, hs, hf]⟩
        · exact ⟨"⚠️ Usage: /clear perma | /clear all",
            by simp [handle_command, hparse, hs, hf, h]⟩
  · intro cmd tok rest hparse htok h1 h2
    simp [handle_command, hparse, htok, h1, h2]
  · intro cmd tok rest hparse htok h1 h2
    have hshow : pyLower tok ≠ "/show" := by rw [htok]; decide
    have hforget : pyLower tok ≠ "/forget" := by rw [htok]; decide
    simp [handle_command, hparse, htok, hshow, hforget, h1, h2]
  · intro cmd tok rest hparse htok hmode
    have hshow : pyLower tok ≠ "/show" := by rw [htok]; decide
    have hforget : pyLower tok ≠ "/forget" := by rw [htok]; decide
    have hclear : pyLower tok ≠ "/clear" := by rw [htok]; decide
    have hset : set_mode st (pyStrip rest)
        = Except.error ("Invalid mode " ++ sq ++ pyStrip rest ++ sq ++ ". Must be one of: "
            ++ pyKeyList (st.conversations.map (fun p => p.1))) := by
      simp only [set_mode]
      rw [hmode]
      simp [pyKeyList]
    simp [handle_command, hparse, htok, hshow, hforget, hclear, hset]

/-- C8 witness: a non-command input falls through with `none`; an
unrecognized `/show` target warns. -/
theorem C8_witness :
    handle_command defaultCore "hello there" = Except.ok (defaultCore, none)
    ∧ handle_command defaultCore "/show blah"
        = Except.ok (defaultCore, some "⚠️ Unknown target for /show") := by
  obtain ⟨h1, _, h3, _, _⟩ := C8_command_handling defaultCore
  exact ⟨h1 "hello there" (Or.inr ⟨"hello", ["there"], by decide, by decide⟩),
    h3 "/show blah" "/show" "blah" (by decide) (by decide) (by decide) (by decide)⟩

/-! ## The send failure path (C1) -/

theorem promote_to_perma_log (cfg : KimikoConfig) (kw : String) (mem : Memory) :
    (promote_to_perma cfg kw mem).log = mem.log := rfl

theorem promoteWords_cons (cfg : KimikoConfig) (counts : List (String × Nat))
    (mem : Memory) (w : String) (t : List String) :
    promoteWords cfg counts mem (w :: t)
      = if cfg.promotion_threshold ≤ (alookup (bumpCount counts w) w).getD 0 then
          promoteWords cfg (bumpCount counts w) (promote_to_perma cfg w mem) t
        else promoteWords cfg (bumpCount counts w) mem t := by
  simp only [promoteWords, List.foldl_cons]
  split <;> rfl

theorem promoteWords_log (cfg : KimikoConfig) (words : List String) :
    ∀ counts mem, (promoteWords cfg counts mem words).2.log = mem.log := by
  induction words with
  | nil => intro counts mem; rfl
  | cons w t ih =>
    intro counts mem
    rw [promoteWords_cons]
    split
    · exact (ih _ _).trans (promote_to_perma_log cfg w mem)
    · exact ih _ _

/-- C1: if the outbound completion call fails with a caught transport,
timeout, or parse error, `send` returns the literal diagnostic string
embedding the error detail, that same string is appended as the assistant
message to the current mode's history, and the log still contains the entry
for the user input added before the network call (no rollback, no crash).
Hypotheses: the current mode has a history (always true for the shipped
modes), the input is not whitespace-only (otherwise no entry was added),
and the configured lifetime is positive (420 in the shipped config). -/
theorem C1_send_failure (st : KimikoCore) (input : String) (now : Int) (msg : String)
    (hmode : (alookup st.conversations st.current_mode).isSome = true)
    (hinput : pyStrip input ≠ "")
    (hlife : 0 < st.config.short_term_lifetime) :
    ∃ st2,
      send st input now (ClientResult.failure msg)
          = Except.ok (st2, "(Error contacting model: " ++ msg ++ ")")
      ∧ (∃ pre post,
          ("(Error contacting model: " ++ msg ++ ")" : String) = pre ++ msg ++ post)
      ∧ (∃ convo, alookup st2.conversations st.current_mode
          = some (convo
              ++ [(⟨"assistant", "(Error contacting model: " ++ msg ++ ")"⟩ : Message)]))
      ∧ ∃ e ∈ st2.memory.log, e.text = pyStrip input := by
  obtain ⟨convo0, hc⟩ := Option.isSome_iff_exists.mp hmode
  simp only [send, build_payload, hc, alookup_aupdate_self]
  refine ⟨_, rfl, ⟨"(Error contacting model: ", ")", rfl⟩, ⟨_, alookup_aupdate_self _ _ _⟩,
    ⟨pyStrip input, some now⟩, ?_, rfl⟩
  show (⟨pyStrip input, some now⟩ : Entry) ∈
    (recall_context st.config 5 10 now
      (promoteWords st.config st.word_counts (add_memory input now st.memory)
        (normalize input)).2).2.log
  have hadd : (add_memory input now st.memory).log
      = st.memory.log ++ [⟨pyStrip input, some now⟩] := by
    unfold add_memory
    rw [if_neg hinput]
  refine List.mem_filter.mpr ⟨?_, ?_⟩
  · rw [promoteWords_log, hadd]
    exact List.mem_append_right _ (by simp)
  · simp [hlife]

/-- C1 witness: a forced transport failure during `send "hello"` on the
shipped core. -/
theorem C1_witness :
    ∃ st2,
      send defaultCore "hello" 100 (ClientResult.failure "boom")
          = Except.ok (st2, "(Error contacting model: " ++ "boom" ++ ")")
      ∧ (∃ pre post,
          ("(Error contacting model: " ++ "boom" ++ ")" : String) = pre ++ "boom" ++ post)
      ∧ (∃ convo, alookup st2.conversations defaultCore.current_mode
          = some (convo
              ++ [(⟨"assistant", "(Error contacting model: " ++ "boom" ++ ")"⟩ : Message)]))
      ∧ ∃ e ∈ st2.memory.log, e.text = pyStrip "hello" :=
  C1_send_failure defaultCore "hello" 100 "boom" (by decide) (by decide) (by decide)

/-! ## The persona invariant (C9) -/

theorem personaInv_of_eq (st st2 : KimikoCore)
    (h1 : st2.role_contexts = st.role_contexts) (h2 : st2.conversations = st.conversations)
    (h : personaInv st) : personaInv st2 := by
  intro m p hp
  rw [h2]
  exact h m p (h1 ▸ hp)

theorem alookup_map_msg (rc : List (String × String)) (m p : String)
    (hp : alookup rc m = some p) :
    alookup (rc.map (fun q => (q.1, [(⟨"system", q.2⟩ : Message)]))) m
      = some [(⟨"system", p⟩ : Message)] := by
  induction rc with
  | nil => exact Option.noConfusion hp
  | cons hd t ih =>
    by_cases hk : hd.1 = m
    · simp only [alookup, if_pos hk, List.map_cons] at hp ⊢
      rw [Option.some.inj hp]
    · simp only [alookup, if_neg hk, List.map_cons] at hp ⊢
      exact ih hp

theorem personaInv_mk (cfg : KimikoConfig) (rc : List (String × String)) (mem0 : Memory) :
    personaInv (mkKimikoCore cfg rc mem0) :=
  fun m p hp => ⟨[], alookup_map_msg rc m p hp⟩

theorem set_mode_ok (st : KimikoCore) (name : String) (st2 : KimikoCore)
    (h : set_mode st name = Except.ok st2) :
    st2.role_contexts = st.role_contexts ∧ st2.conversations = st.conversations := by
  simp only [set_mode] at h
  split at h
  · injection h with h2
    subst h2
    exact ⟨rfl, rfl⟩
  · exact Except.noConfusion h

theorem reset_ok_inv (st : KimikoCore) (mo : Option String) (st2 : KimikoCore)
    (h : reset_conversation st mo = Except.ok st2) (hi : personaInv st) : personaInv st2 := by
  simp only [reset_conversation] at h
  cases hrc : alookup st.role_contexts (resolveMode st mo) with
  | none => rw [hrc] at h; exact Except.noConfusion h
  | some p =>
    rw [hrc] at h
    injection h with h2
    subst h2
    intro m q hq
    by_cases hm : m = resolveMode st mo
    · subst hm
      have hpq : q = p := Option.some.inj ((hq.symm).trans hrc)
      exact ⟨[], by rw [alookup_aupdate_self, hpq]⟩
    · obtain ⟨rest, hr⟩ := hi m q hq
      exact ⟨rest, by rw [alookup_aupdate_ne _ _ _ _ hm]; exact hr⟩

theorem personaInv_append (st : KimikoCore) (hi : personaInv st) (m0 : String)
    (convo0 extra : List Message) (h0 : alookup st.conversations m0 = some convo0) :
    personaInv { st with conversations := aupdate st.conversations m0 (convo0 ++ extra) } := by
  intro m p hp
  by_cases hm : m = m0
  · subst hm
    obtain ⟨rest, hr⟩ := hi m p hp
    have hc : convo0 = (⟨"system", p⟩ : Message) :: rest :=
      Option.some.inj ((h0.symm).trans hr)
    exact ⟨rest ++ extra, by rw [alookup_aupdate_self, hc]; rfl⟩
  · obtain ⟨rest, hr⟩ := hi m p hp
    exact ⟨rest, by rw [alookup_aupdate_ne _ _ _ _ hm]; exact hr⟩

theorem build_payload_ok_inv (st : KimikoCore) (input : String) (now : Int) (pl : Payload)
    (st2 : KimikoCore) (h : build_payload st input now = Except.ok (pl, st2))
    (hi : personaInv st) :
    personaInv st2 ∧ st2.role_contexts = st.role_contexts
      ∧ st2.current_mode = st.current_mode := by
  simp only [build_payload] at h
  cases hc : alookup st.conversations st.current_mode with
  | none => rw [hc] at h; exact Except.noConfusion h
  | some convo0 =>
    rw [hc] at h
    injection h with h2
    injection h2 with hpl hs
    cases hs
    exact ⟨personaInv_of_eq _ _ rfl rfl (personaInv_append st hi _ convo0 _ hc), rfl, rfl⟩

theorem send_ok_inv (st : KimikoCore) (input : String) (now : Int) (res : ClientResult)
    (st2 : KimikoCore) (reply : String)
    (h : send st input now res = Except.ok (st2, reply)) (hi : personaInv st) :
    personaInv st2 := by
  simp only [send] at h
  cases hb : build_payload st input now with
  | error e => rw [hb] at h; exact Except.noConfusion h
  | ok pr =>
    obtain ⟨pl, stb⟩ := pr
    rw [hb] at h
    dsimp only at h
    cases hc : alookup stb.conversations stb.current_mode with
    | none => rw [hc] at h; exact Except.noConfusion h
    | some convo =>
      rw [hc] at h
      injection h with h2
      injection h2 with hs hr
      cases hs
      have hib := build_payload_ok_inv st input now pl stb hb hi
      exact personaInv_of_eq _ _ rfl rfl (personaInv_append stb hib.1 _ convo _ hc)

theorem handle_command_ok_inv (st : KimikoCore) (cmd : String) (st2 : KimikoCore)
    (res : Option String) (h : handle_command st cmd = Except.ok (st2, res))
    (hi : personaInv st) : personaInv st2 := by
  simp only [handle_command] at h
  rcases hsp : pySplitMax1 cmd with _ | ⟨a0, rest⟩ <;> rw [hsp] at h <;> dsimp only at h
  · injection h with h2
    injection h2 with hs _
    exact hs ▸ hi
  · by_cases h1 : pyLower a0 = "/show"
    · rw [if_pos h1] at h
      rcases rest with _ | ⟨arg, rs⟩
      · injection h with h2
        injection h2 with hs _
        exact hs ▸ hi
      · repeat' split at h
        all_goals
          (injection h with h2; injection h2 with hs _; cases hs;
            exact personaInv_of_eq _ _ rfl rfl hi)
    · rw [if_neg h1] at h
      by_cases h2f : pyLower a0 = "/forget"
      · rw [if_pos h2f] at h
        rcases rest with _ | ⟨arg, rs⟩
        · injection h with h2
          injection h2 with hs _
          exact hs ▸ hi
        · injection h with h2
          injection h2 with hs _
          cases hs
          exact personaInv_of_eq _ _ rfl rfl hi
      · rw [if_neg h2f] at h
        by_cases h3 : pyLower a0 = "/clear"
        · rw [if_pos h3] at h
          rcases rest with _ | ⟨arg, rs⟩
          · injection h with h2
            injection h2 with hs _
            exact hs ▸ hi
          · repeat' split at h
            all_goals
              (injection h with h2; injection h2 with hs _; cases hs;
                exact personaInv_of_eq _ _ rfl rfl hi)
        · rw [if_neg h3] at h
          by_cases h4 : pyLower a0 = "/mode"
          · rw [if_pos h4] at h
            rcases rest with _ | ⟨arg, rs⟩
            · injection h with h2
              injection h2 with hs _
              exact hs ▸ hi
            · dsimp only at h
              cases hsm : set_mode st (pyStrip arg) with
              | error e => rw [hsm] at h; exact Except.noConfusion h
              | ok st3 =>
                rw [hsm] at h
                injection h with h2
                injection h2 with hs _
                cases hs
                obtain ⟨hrc, hcv⟩ := set_mode_ok st (pyStrip arg) _ hsm
                exact personaInv_of_eq _ _ hrc hcv hi
          · rw [if_neg h4] at h
            by_cases h5 : pyLower a0 = "/reset"
            · rw [if_pos h5] at h
              cases hrs : reset_conversation st none with
              | error e => rw [hrs] at h; exact Except.noConfusion h
              | ok st3 =>
                rw [hrs] at h
                injection h with h2
                injection h2 with hs _
                cases hs
                exact reset_ok_inv st none _ hrs hi
            · rw [if_neg h5] at h
              injection h with h2
              injection h2 with hs _
              exact hs ▸ hi

/-- C9: every mode with a configured persona preamble has a history that
begins with that preamble as a system message — the invariant holds at
construction and is preserved by `set_mode`, `reset_conversation`,
`_build_payload`, `send`, and `handle_command` (whenever those operations
return rather than raise). -/
theorem C9_persona_invariant :
    (∀ (cfg : KimikoConfig) (rc : List (String × String)) (mem0 : Memory),
      personaInv (mkKimikoCore cfg rc mem0))
    ∧ (∀ st name st2, set_mode st name = Except.ok st2 → personaInv st → personaInv st2)
    ∧ (∀ st mo st2, reset_conversation st mo = Except.ok st2 → personaInv st →
        personaInv st2)
    ∧ (∀ st input now pl st2, build_payload st input now = Except.ok (pl, st2) →
        personaInv st → personaInv st2)
    ∧ (∀ st input now res st2 reply, send st input now res = Except.ok (st2, reply) →
        personaInv st → personaInv st2)
    ∧ (∀ st cmd st2 res, handle_command st cmd = Except.ok (st2, res) → personaInv st →
        personaInv st2) :=
  ⟨personaInv_mk,
   fun st name st2 h hi =>
     personaInv_of_eq st st2 (set_mode_ok st name st2 h).1 (set_mode_ok st name st2 h).2 hi,
   fun st mo st2 h hi => reset_ok_inv st mo st2 h hi,
   fun st input now pl st2 h hi => (build_payload_ok_inv st input now pl st2 h hi).1,
   fun st input now res st2 reply h hi => send_ok_inv st input now res st2 reply h hi,
   fun st cmd st2 res h hi => handle_command_ok_inv st cmd st2 res h hi⟩

/-- C9 witness: the invariant at construction of the shipped core, and
preservation across a concrete mode switch. -/
theorem C9_witness :
    personaInv defaultCore ∧ personaInv { defaultCore with current_mode := "work" } := by
  obtain ⟨hmk, hset, -, -, -, -⟩ := C9_persona_invariant
  exact ⟨hmk {} ROLE_CONTEXTS ⟨[], []⟩,
    hset defaultCore "work" { defaultCore with current_mode := "work" } rfl
      (hmk {} ROLE_CONTEXTS ⟨[], []⟩)⟩

/-! ## Reflexivity of the matcher (C4) -/

theorem mem_b2jList_iff (b : List Char) (c : Char) (j : Nat) :
    j ∈ b2jList b c ↔ popularB b c = false ∧ j < b.length ∧ b.getD j ' ' = c := by
  unfold b2jList
  split
  · next hpop =>
    simp [hpop]
  · next hpop =>
    simp only [List.mem_filter, List.mem_range, Bool.not_eq_true] at *
    constructor
    · rintro ⟨h1, h2⟩
      exact ⟨Bool.not_eq_true _ ▸ (by simpa using hpop), h1, by simpa using h2⟩
    · rintro ⟨-, h1, h2⟩
      exact ⟨h1, by simpa using h2⟩

theorem memB2j_char (s : List Char) (i j : Nat) (h : j ∈ b2jList s (s.getD i ' ')) :
    s.getD j ' ' = s.getD i ' ' := ((mem_b2jList_iff _ _ _).mp h).2.2

theorem memB2j_lt (s : List Char) (i j : Nat) (h : j ∈ b2jList s (s.getD i ' ')) :
    j < s.length := ((mem_b2jList_iff _ _ _).mp h).2.1

theorem memB2j_diag_a (s : List Char) (i j : Nat) (hi : i < s.length)
    (h : j ∈ b2jList s (s.getD i ' ')) : i ∈ b2jList s (s.getD i ' ') := by
  rcases (mem_b2jList_iff _ _ _).mp h with ⟨hpop, -, -⟩
  exact (mem_b2jList_iff _ _ _).mpr ⟨hpop, hi, rfl⟩

theorem memB2j_diag_b (s : List Char) (i j : Nat) (h : j ∈ b2jList s (s.getD i ' ')) :
    j ∈ b2jList s (s.getD j ' ') := by
  rw [memB2j_char s i j h]
  exact h

theorem diagR_le_left (s : List Char) : ∀ i j, diagR s i j ≤ i + 1 := by
  intro i
  induction i with
  | zero => intro j; unfold diagR; split <;> omega
  | succ i ih =>
    intro j
    cases j with
    | zero => unfold diagR; split <;> omega
    | succ j =>
      unfold diagR
      split
      · have := ih j
        omega
      · omega

theorem diagR_le_diag_a (s : List Char) : ∀ i j, i < s.length →
    diagR s i j ≤ diagR s i i := by
  intro i
  induction i with
  | zero =>
    intro j hi
    show diagR s 0 j ≤ diagR s 0 0
    unfold diagR
    split
    · next hm =>
      rw [if_pos (memB2j_diag_a s 0 j hi hm)]
    · omega
  | succ i ih =>
    intro j hi
    cases j with
    | zero =>
      show diagR s (i + 1) 0 ≤ diagR s (i + 1) (i + 1)
      unfold diagR
      split
      · next hm =>
        rw [if_pos (memB2j_diag_a s (i + 1) 0 hi hm)]
        omega
      · omega
    | succ j =>
      show diagR s (i + 1) (j + 1) ≤ diagR s (i + 1) (i + 1)
      unfold diagR
      split
      · next hm =>
        rw [if_pos (memB2j_diag_a s (i + 1) (j + 1) hi hm)]
        have := ih j (by omega)
        omega
      · omega

theorem diagR_le_diag_b (s : List Char) : ∀ j i, diagR s i j ≤ diagR s j j := by
  intro j
  induction j with
  | zero =>
    intro i
    cases i with
    | zero => omega
    | succ i =>
      show diagR s (i + 1) 0 ≤ diagR s 0 0
      unfold diagR
      split
      · next hm =>
        rw [if_pos (memB2j_diag_b s (i + 1) 0 hm)]
      · omega
  | succ j ih =>
    intro i
    cases i with
    | zero =>
      show diagR s 0 (j + 1) ≤ diagR s (j + 1) (j + 1)
      unfold diagR
      split
      · next hm =>
        rw [if_pos (memB2j_diag_b s 0 (j + 1) hm)]
        omega
      · omega
    | succ i =>
      show diagR s (i + 1) (j + 1) ≤ diagR s (j + 1) (j + 1)
      unfold diagR
      split
      · next hm =>
        rw [if_pos (memB2j_diag_b s (i + 1) (j + 1) hm)]
        have := ih i
        omega
      · omega

theorem diagR_eq_zero_of_not_mem (s : List Char) (i j : Nat)
    (h : j ∉ b2jList s (s.getD i ' ')) : diagR s i j = 0 := by
  cases i with
  | zero => unfold diagR; rw [if_neg h]
  | succ i => cases j with
    | zero => unfold diagR; rw [if_neg h]
    | succ j => unfold diagR; rw [if_neg h]

theorem b2jList_pairwise (b : List Char) (c : Char) : (b2jList b c).Pairwise (· < ·) := by
  unfold b2jList
  split
  · exact List.Pairwise.nil
  · exact (List.pairwise_lt_range _).filter _

/-- Processing a batch of columns none of which can beat the running best
leaves the best untouched. -/
theorem flmInner_best_noupdate (s : List Char) (d : Nat → Nat) (i : Nat)
    (hk : ∀ j, j ∈ b2jList s (s.getD i ' ') →
      ((match j with | 0 => 0 | j' + 1 => d j') + 1 = diagR s i j)) :
    ∀ (l : List Nat) (nd : Nat → Nat) (best : Nat × Nat × Nat),
      (∀ j ∈ l, j ∈ b2jList s (s.getD i ' ')) →
      (∀ j ∈ l, diagR s i j ≤ best.2.2) →
      (flmInner d i 0 s.length l nd best).2 = best := by
  intro l
  induction l with
  | nil => intro nd best _ _; rfl
  | cons j t ih =>
    intro nd best hmem hle
    have hj := hmem j (by simp)
    have hjn := memB2j_lt s i j hj
    have hkj := hk j hj
    simp only [flmInner]
    rw [if_neg (Nat.not_lt_zero j), if_neg (by omega : ¬ s.length ≤ j), hkj,
      if_neg (not_lt.mpr (hle j (by simp)))]
    exact ih _ best (fun x hx => hmem x (by simp [hx])) (fun x hx => hle x (by simp [hx]))

/-- Processing a batch of ascending columns that contains the diagonal
column `i`, starting from a diagonal best that dominates the pre-diagonal
columns, yields a diagonal best dominating `diagR s i i` as well. -/
theorem flmInner_best_diag (s : List Char) (d : Nat → Nat) (i : Nat) (hi : i < s.length)
    (hk : ∀ j, j ∈ b2jList s (s.getD i ' ') →
      ((match j with | 0 => 0 | j' + 1 => d j') + 1 = diagR s i j)) :
    ∀ (l : List Nat) (nd : Nat → Nat) (best : Nat × Nat × Nat),
      (∀ j ∈ l, j ∈ b2jList s (s.getD i ' ')) →
      l.Pairwise (· < ·) →
      i ∈ l →
      best.1 = best.2.1 →
      best.1 + best.2.2 ≤ s.length →
      (∀ j ∈ l, j < i → diagR s i j ≤ best.2.2) →
      ((flmInner d i 0 s.length l nd best).2.1
          = (flmInner d i 0 s.length l nd best).2.2.1
        ∧ (flmInner d i 0 s.length l nd best).2.1
            + (flmInner d i 0 s.length l nd best).2.2.2 ≤ s.length
        ∧ best.2.2 ≤ (flmInner d i 0 s.length l nd best).2.2.2
        ∧ diagR s i i ≤ (flmInner d i 0 s.length l nd best).2.2.2) := by
  intro l
  induction l with
  | nil => intro nd best _ _ hil; cases hil
  | cons j t ih =>
    intro nd best hmem hpair hil hdiag hbound hlt
    have hj := hmem j (by simp)
    have hjn := memB2j_lt s i j hj
    have hkj := hk j hj
    simp only [flmInner]
    rw [if_neg (Nat.not_lt_zero j), if_neg (by omega : ¬ s.length ≤ j), hkj]
    by_cases hji : j = i
    · subst hji
      have htails : ∀ x ∈ t, x ∈ b2jList s (s.getD j ' ') :=
        fun x hx => hmem x (by simp [hx])
      by_cases hup : best.2.2 < diagR s j j
      · rw [if_pos hup]
        have hres := flmInner_best_noupdate s d j hk t
          (fun j' => if j' = j then diagR s j j else nd j')
          (j + 1 - diagR s j j, j + 1 - diagR s j j, diagR s j j) htails
          (fun x hx => le_trans (diagR_le_diag_a s j x hi) (le_refl _))
        rw [hres]
        have hle1 := diagR_le_left s j j
        refine ⟨rfl, ?_, le_of_lt hup, le_refl _⟩
        show j + 1 - diagR s j j + diagR s j j ≤ s.length
        omega
      · rw [if_neg hup]
        have hres := flmInner_best_noupdate s d j hk t
          (fun j' => if j' = j then diagR s j j else nd j') best htails
          (fun x hx => le_trans (diagR_le_diag_a s j x hi) (not_lt.mp hup))
        rw [hres]
        exact ⟨hdiag, hbound, le_refl _, not_lt.mp hup⟩
    · have hjlt : j < i := by
        rcases List.mem_cons.mp hil with h | h
        · exact absurd h.symm hji
        · exact (List.pairwise_cons.mp hpair).1 i h
      rw [if_neg (not_lt.mpr (hlt j (by simp) hjlt))]
      refine ih _ best (fun x hx => hmem x (by simp [hx]))
        (List.pairwise_cons.mp hpair).2 ?_ hdiag hbound
        (fun x hx hxi => hlt x (by simp [hx]) hxi)
      rcases List.mem_cons.mp hil with h | h
      · exact absurd h.symm hji
      · exact h

/-- The dictionary built by one inner pass: exactly the processed columns
hold their freshly computed lengths. -/
theorem flmInner_dict (s : List Char) (d : Nat → Nat) (i : Nat) :
    ∀ (l : List Nat) (nd : Nat → Nat) (best : Nat × Nat × Nat),
      (∀ j ∈ l, j < s.length) →
      (flmInner d i 0 s.length l nd best).1
        = fun j => if j ∈ l then (match j with | 0 => 0 | j' + 1 => d j') + 1 else nd j := by
  intro l
  induction l with
  | nil =>
    intro nd best _
    funext j
    simp [flmInner]
  | cons j t ih =>
    intro nd best hlen
    have hjn := hlen j (by simp)
    simp only [flmInner]
    rw [if_neg (Nat.not_lt_zero j), if_neg (by omega : ¬ s.length ≤ j)]
    rw [ih _ _ (fun x hx => hlen x (by simp [hx]))]
    funext x
    by_cases hxt : x ∈ t
    · simp [hxt]
    · by_cases hxj : x = j
      · subst hxj
        simp [hxt]
      · simp [hxt, hxj]

/-- Invariant of the self-comparison dynamic program after `count` rows:
the stored dictionary is row `count - 1` of `diagR`, and the running best is
diagonal, within bounds, and dominates every processed diagonal run. -/
theorem flmRows_self_inv (s : List Char) :
    ∀ count, count ≤ s.length →
      ((flmRows s s 0 0 s.length count).1
          = fun j => (match count with | 0 => 0 | c + 1 => diagR s c j))
      ∧ (flmRows s s 0 0 s.length count).2.1 = (flmRows s s 0 0 s.length count).2.2.1
      ∧ (flmRows s s 0 0 s.length count).2.1
          + (flmRows s s 0 0 s.length count).2.2.2 ≤ s.length
      ∧ ∀ i' < count, diagR s i' i' ≤ (flmRows s s 0 0 s.length count).2.2.2 := by
  intro count
  induction count with
  | zero =>
    intro _
    refine ⟨rfl, rfl, ?_, fun i' h => absurd h (Nat.not_lt_zero i')⟩
    show 0 + 0 ≤ s.length
    omega
  | succ c ih =>
    intro hcount
    have hc : c < s.length := by omega
    obtain ⟨hdict, hbdiag, hbbound, hrows⟩ := ih (by omega)
    have hstep : flmRows s s 0 0 s.length (c + 1)
        = flmInner (flmRows s s 0 0 s.length c).1 c 0 s.length
            (b2jList s (s.getD c ' ')) (fun _ => 0) (flmRows s s 0 0 s.length c).2 := by
      simp only [flmRows]
      rw [Nat.zero_add]
    have hk : ∀ j, j ∈ b2jList s (s.getD c ' ') →
        ((match j with | 0 => 0 | j' + 1 => (flmRows s s 0 0 s.length c).1 j') + 1
          = diagR s c j) := by
      intro j hj
      rw [hdict]
      cases c with
      | zero =>
        cases j with
        | zero =>
          show 0 + 1 = diagR s 0 0
          unfold diagR
          rw [if_pos hj]
        | succ j' =>
          show 0 + 1 = diagR s 0 (j' + 1)
          unfold diagR
          rw [if_pos hj]
      | succ c' =>
        cases j with
        | zero =>
          show 0 + 1 = diagR s (c' + 1) 0
          unfold diagR
          rw [if_pos hj]
        | succ j' =>
          show diagR s c' j' + 1 = diagR s (c' + 1) (j' + 1)
          conv_rhs => unfold diagR
          rw [if_pos hj]
    have hdict2 : (flmRows s s 0 0 s.length (c + 1)).1 = fun j => diagR s c j := by
      rw [hstep,
        flmInner_dict s (flmRows s s 0 0 s.length c).1 c (b2jList s (s.getD c ' '))
          (fun _ => 0) (flmRows s s 0 0 s.length c).2
          (fun j hj => memB2j_lt s c j hj)]
      funext j
      by_cases hj : j ∈ b2jList s (s.getD c ' ')
      · rw [if_pos hj, hk j hj]
      · rw [if_neg hj, (diagR_eq_zero_of_not_mem s c j hj)]
    by_cases hcm : c ∈ b2jList s (s.getD c ' ')
    · have hbest := flmInner_best_diag s (flmRows s s 0 0 s.length c).1 c hc hk
        (b2jList s (s.getD c ' ')) (fun _ => 0) (flmRows s s 0 0 s.length c).2
        (fun j hj => hj) (b2jList_pairwise s (s.getD c ' ')) hcm hbdiag hbbound
        (fun j _ hjc => le_trans (diagR_le_diag_b s j c) (hrows j hjc))
      rw [hstep] at hdict2 ⊢
      refine ⟨hdict2.trans (by rfl), hbest.1, hbest.2.1, ?_⟩
      intro i' hi'
      rcases Nat.lt_succ_iff_lt_or_eq.mp hi' with h | h
      · exact le_trans (hrows i' h) hbest.2.2.1
      · subst h
        exact hbest.2.2.2
    · have hl : b2jList s (s.getD c ' ') = [] :=
        List.eq_nil_iff_forall_not_mem.mpr
          (fun x hx => hcm (memB2j_diag_a s c x hc hx))
      have hdz : diagR s c c = 0 := diagR_eq_zero_of_not_mem s c c hcm
      rw [hstep, hl]
      refine ⟨?_, hbdiag, hbbound, ?_⟩
      · funext j
        show (fun _ => (0 : Nat)) j = diagR s c j
        by_cases hj : j ∈ b2jList s (s.getD c ' ')
        · rw [hl] at hj
          cases hj
        · rw [diagR_eq_zero_of_not_mem s c j hj]
      · intro i' hi'
        rcases Nat.lt_succ_iff_lt_or_eq.mp hi' with h | h
        · exact hrows i' h
        · subst h
          rw [hdz]
          omega

theorem extBack_self_nojunk (s : List Char) :
    ∀ bi bs, extBack s s (fun c => !bjunk c) 0 0 bi bi bs = (0, 0, bs + bi) := by
  intro bi
  induction bi with
  | zero => intro bs; rfl
  | succ bi ih =>
    intro bs
    have hcond : (decide (0 < bi + 1) && decide (0 < bi + 1)
        && !bjunk (s.getD (bi + 1 - 1) ' ')
        && (s.getD bi ' ' == s.getD (bi + 1 - 1) ' ')) = true := by
      simp [bjunk]
    simp only [extBack, hcond, if_true]
    rw [show bi + 1 - 1 = bi from rfl, ih (bs + 1)]
    have harith : bs + 1 + bi = bs + (bi + 1) := by omega
    rw [harith]

theorem extFwd_self_nojunk (s : List Char) :
    ∀ fuel bs, fuel + bs = s.length →
      extFwd s s (fun c => !bjunk c) s.length s.length 0 0 fuel bs = s.length := by
  intro fuel
  induction fuel with
  | zero =>
    intro bs h
    simpa [extFwd] using h
  | succ fuel ih =>
    intro bs h
    have hlt : bs < s.length := by omega
    have hcond : (decide (0 + bs < s.length) && decide (0 + bs < s.length)
        && !bjunk (s.getD (0 + bs) ' ')
        && (s.getD (0 + bs) ' ' == s.getD (0 + bs) ' ')) = true := by
      simp [bjunk, hlt]
    simp only [extFwd, hcond, if_true]
    exact ih (bs + 1) (by omega)

theorem extBack_junk (a b : List Char) (alo blo : Nat) :
    ∀ bi bj bs, extBack a b bjunk alo blo bi bj bs = (bi, bj, bs) := by
  intro bi bj bs
  cases bi with
  | zero => rfl
  | succ bi => simp [extBack, bjunk]

theorem extFwd_junk (a b : List Char) (ahi bhi bi bj : Nat) :
    ∀ fuel bs, extFwd a b bjunk ahi bhi bi bj fuel bs = bs := by
  intro fuel
  induction fuel with
  | zero => intro bs; rfl
  | succ fuel ih => intro bs; simp [extFwd, bjunk]

/-- On identical inputs the best match found is the whole string: the
dynamic program reports a diagonal block, and the extension loops stretch it
to the full range. -/
theorem flm_self (s : List Char) :
    find_longest_match s s 0 s.length 0 s.length = (0, 0, s.length) := by
  obtain ⟨-, hbdiag, hbbound, -⟩ := flmRows_self_inv s s.length (le_refl _)
  simp only [find_longest_match]
  rw [show s.length - 0 = s.length from rfl] at *
  generalize hg : flmRows s s 0 0 s.length s.length = st at hbdiag hbbound ⊢
  obtain ⟨d0, bi, bj, bs⟩ := st
  dsimp only at hbdiag hbbound ⊢
  subst hbdiag
  rw [extBack_self_nojunk s bi bs]
  dsimp only
  rw [extFwd_self_nojunk s (s.length - 0 - (bs + bi)) (bs + bi) (by omega)]
  rw [extBack_junk]
  dsimp only
  rw [extFwd_junk]

theorem matchTotal_self (s : List Char) : matchTotal s s = s.length := by
  have haux : matchingBlocksAux s s (s.length + s.length + 1) 0 s.length 0 s.length
      = if s.length = 0 then [] else [(0, 0, s.length)] := by
    simp only [matchingBlocksAux, flm_self]
    by_cases h0 : s.length = 0
    · simp [h0]
    · rw [if_neg h0]
      rw [if_neg (by omega : ¬ (0 < 0 ∧ 0 < 0)),
        if_neg (by omega : ¬ (0 + s.length < s.length ∧ 0 + s.length < s.length))]
      simp [h0]
  unfold matchTotal get_matching_blocks
  rw [haux]
  by_cases h0 : s.length = 0
  · simp [h0, List.foldl]
  · simp only [if_neg h0]
    show (0 + s.length) + 0 = s.length
    omega

theorem simRatio_self (s : List Char) : simRatio s s = 1 := by
  unfold simRatio
  by_cases h0 : s.length + s.length = 0
  · rw [if_pos h0]
  · rw [if_neg h0, matchTotal_self]
    have hne : ((s.length : Rat) + (s.length : Rat)) ≠ 0 := by
      rw [← Nat.cast_add]
      exact_mod_cast h0
    field_simp
    ring

theorem simRatio_abba_bababa : simRatio "abba".data "bababa".data = 4 / 5 := by
  unfold simRatio
  rw [show matchTotal "abba".data "bababa".data = 4 from rfl,
    show ("abba".data.length : Nat) = 4 from rfl,
    show ("bababa".data.length : Nat) = 6 from rfl]
  norm_num

theorem simRatio_bababa_abba : simRatio "bababa".data "abba".data = 2 / 5 := by
  unfold simRatio
  rw [show matchTotal "bababa".data "abba".data = 2 from rfl,
    show ("bababa".data.length : Nat) = 6 from rfl,
    show ("abba".data.length : Nat) = 4 from rfl]
  norm_num

theorem similar_abba_bababa : similar {} "abba" "bababa" = true := by
  unfold similar
  rw [simRatio_abba_bababa]
  simp only [decide_eq_true_eq]
  show (0.78 : Rat) ≤ 4 / 5
  norm_num

theorem similar_bababa_abba : similar {} "bababa" "abba" = false := by
  unfold similar
  rw [simRatio_bababa_abba]
  simp only [decide_eq_false_iff_not]
  show ¬ (0.78 : Rat) ≤ 2 / 5
  norm_num

/-- C4 counterexample: `similar` is not symmetric — `SequenceMatcher`'s
best-block recursion depends on the argument order, and at the pair
`("abba", "bababa")` the two ratios are 0.8 and 0.4, straddling the 0.78
threshold. -/
theorem C4_counterexample :
    ¬ (∀ a b : String, similar {} a b = similar {} b a) := by
  intro h
  have h2 := h "abba" "bababa"
  rw [similar_abba_bababa, similar_bababa_abba] at h2
  exact Bool.noConfusion h2

/-- C4 amended: `similar(a, a)` is true for every string `a` (the empty
string included, since the ratio of two empty sequences is defined as 1.0),
but `similar` is not symmetric in general: `similar("abba", "bababa")` is
true while `similar("bababa", "abba")` is false. -/
theorem C4_similar_reflexive_not_symmetric :
    (∀ a : String, similar {} a a = true)
    ∧ similar {} "abba" "bababa" = true
    ∧ similar {} "bababa" "abba" = false := by
  refine ⟨?_, similar_abba_bababa, similar_bababa_abba⟩
  intro a
  unfold similar
  rw [simRatio_self]
  simp only [decide_eq_true_eq]
  show (0.78 : Rat) ≤ 1
  norm_num

end Kimiko
